import Mathlib

/-!
Verification of the news-article RAG pipeline.

The repository contains two near-duplicate pipeline implementations:

* `backend/src/utils/rag.new.js` — the purely in-memory variant (class
  `RAGPipeline` with `addDocuments` and `query`); embedded below in
  namespace `RagNew`.
* `backend/src/utils/rag.js` — the variant with URL deduplication, a
  `clear()` operation and an optional remote vector-store path (Jina
  embeddings + Chroma); it is the module actually consumed by
  `routes/chat.js` and `scripts/seedDatabase.js`; embedded below in
  namespace `Rag`.

Both files share identical copies of the helper functions `tokenize`,
`getWordFreq` and `cosineSimilarity`; those are embedded once, at top
level.

Modelling conventions:

* JS strings are Lean `String`s (ASCII-faithful: `toLowerCase`, the
  regex classes `\w`/`\s`, `trim`, `substring` and `length` are modelled
  over characters, which agrees with JS on ASCII input).
* A JS object field that may be absent is modelled as `""` where the
  source only ever uses it through falsy checks (`!doc.text`,
  `doc.url || hole`), which treat `undefined` and `""` identically.
* JS number results of `cosineSimilarity` are the real values
  `dot / (sqrt normA * sqrt normB)`.  To keep the pipeline executable
  the score is represented exactly by the pair `(dot, normA * normB)`
  of naturals together with the positivity of the second component;
  `Score.val` gives the denoted real number, and comparisons used by
  the code (`sort` comparator, `score > 0`) are performed by
  cross-multiplying squares, which is proved below to agree with the
  order of the denoted reals.  IEEE-754 double rounding is idealised
  away, exactly as a spec-level reading of the arithmetic.
* External collaborators (Gemini generation, Jina embeddings, Chroma)
  are oracles carried in an `Env` structure; a `none`/`false` oracle
  answer models a thrown/failed remote call.
-/

/-- Characters matched by the JS regex class `\w` (ASCII word chars). -/
def jsWordChar (c : Char) : Bool :=
  c.isAlphanum || c = '_'

/-- One character of `text.toLowerCase().replace(/[^\w\s]/g, ' ')`:
lower-case the character, then replace it by a space unless it is a
word character or whitespace. -/
def cleanChar (c : Char) : Char :=
  let c := c.toLower
  if jsWordChar c || c.isWhitespace then c else ' '

/-- Splitting on whitespace, as `split(/\s+/)` does up to empty pieces
(the empty pieces JS produces at a leading separator are dropped by the
`length > 2` filter in `tokenize`, so they are immaterial). -/
def wordsAux (cur : List Char) : List Char → List (List Char)
  | [] => [cur.reverse]
  | c :: cs =>
      if c.isWhitespace then cur.reverse :: wordsAux [] cs
      else wordsAux (c :: cur) cs

/-- `tokenize(text)` from rag.new.js lines 8–15 and rag.js lines 235–242:
lower-case, replace punctuation by spaces, split on whitespace, keep
words of length > 2.  (`if (!text) return []` is subsumed: an empty
string yields no words of length > 2.) -/
def tokenize (text : String) : List String :=
  ((wordsAux [] (text.toList.map cleanChar)).map (fun w => w.asString)).filter
    (fun w => w.length > 2)

/-- A JS word-frequency object: an insertion-ordered association list
from token to count (JS object keys cannot repeat). -/
abbrev Vec := List (String × Nat)

/-- Lookup with default 0, as `freq[word] || 0`. -/
def getD (v : Vec) (w : String) : Nat :=
  match v.find? (fun p => p.1 = w) with
  | some p => p.2
  | none => 0

/-- One `reduce` step of `getWordFreq`: bump the count of `w`. -/
def bump (freq : Vec) (w : String) : Vec :=
  if freq.any (fun p => p.1 = w) then
    freq.map (fun p => if p.1 = w then (p.1, p.2 + 1) else p)
  else freq ++ [(w, 1)]

/-- `getWordFreq(tokens)` from rag.new.js lines 17–22. -/
def getWordFreq (tokens : List String) : Vec :=
  tokens.foldl bump []

/-- The key set union `new Set([...Object.keys(vecA), ...Object.keys(vecB)])`
(order is irrelevant to the three sums computed over it). -/
def keyUnion (a b : Vec) : List String :=
  (a.map Prod.fst ++ b.map Prod.fst).dedup

/-- One iteration of the `cosineSimilarity` loop: accumulate
`(dotProduct, normA, normB)`. -/
def simStep (a b : Vec) (acc : Nat × Nat × Nat) (w : String) : Nat × Nat × Nat :=
  let x := getD a w
  let y := getD b w
  (acc.1 + x * y, acc.2.1 + x * x, acc.2.2 + y * y)

/-- The loop of `cosineSimilarity`: the three sums over the key union. -/
def simSums (a b : Vec) : Nat × Nat × Nat :=
  (keyUnion a b).foldl (simStep a b) (0, 0, 0)

/-- The exact value of a similarity score: the JS double
`dot / (Math.sqrt normA * Math.sqrt normB)` is represented by its
numerator `dot` and the product `den2 = normA * normB` under the square
root; `den2` is positive for every score the code constructs. -/
structure Score where
  dot : Nat
  den2 : Nat
  den2_pos : 0 < den2

/-- The real number denoted by a score. -/
noncomputable def Score.val (s : Score) : ℝ :=
  (s.dot : ℝ) / Real.sqrt (s.den2 : ℝ)

/-- `cosineSimilarity(vecA, vecB)` from rag.new.js lines 24–39 and
rag.js lines 251–268: `0` when either norm is `0`, otherwise
`dot / (sqrt normA * sqrt normB)` (represented as `(dot, normA*normB)`;
`sqrt normA * sqrt normB = sqrt (normA * normB)`). -/
def cosineSimilarity (a b : Vec) : Score :=
  let s := simSums a b
  if h : s.2.1 = 0 ∨ s.2.2 = 0 then ⟨0, 1, Nat.one_pos⟩
  else
    ⟨s.1, s.2.1 * s.2.2,
      Nat.mul_pos (Nat.pos_of_ne_zero (fun hh => h (Or.inl hh)))
        (Nat.pos_of_ne_zero (fun hh => h (Or.inr hh)))⟩

/-- The JS comparison `score_t <= score_s` between two denoted reals,
decided exactly by cross-multiplying squares (all components are
nonnegative). -/
def Score.sge (s t : Score) : Prop :=
  t.dot * t.dot * s.den2 ≤ s.dot * s.dot * t.den2

instance (s t : Score) : Decidable (Score.sge s t) :=
  inferInstanceAs (Decidable (_ ≤ _))

/-- The JS test `score > 0`, decided exactly: with a positive
denominator the quotient is positive iff the numerator is. -/
def Score.isPos (s : Score) : Bool :=
  decide (0 < s.dot)

theorem Score.val_nonneg (s : Score) : 0 ≤ s.val := by
  unfold Score.val
  positivity

theorem Score.sqrt_den2_pos (s : Score) : 0 < Real.sqrt (s.den2 : ℝ) := by
  have : (0 : ℝ) < (s.den2 : ℝ) := by exact_mod_cast s.den2_pos
  exact Real.sqrt_pos.mpr this

theorem sqrt_cross (n m : ℕ) :
    Real.sqrt ((n * n * m : ℕ) : ℝ) = (n : ℝ) * Real.sqrt (m : ℝ) := by
  push_cast
  rw [Real.sqrt_mul (by positivity), Real.sqrt_mul_self (by positivity)]

theorem Score.sge_iff (s t : Score) : s.sge t ↔ t.val ≤ s.val := by
  unfold Score.sge Score.val
  rw [div_le_div_iff₀ t.sqrt_den2_pos s.sqrt_den2_pos, ← sqrt_cross t.dot s.den2,
    ← sqrt_cross s.dot t.den2, Real.sqrt_le_sqrt_iff (by positivity)]
  constructor
  · intro h
    exact_mod_cast h
  · intro h
    exact_mod_cast h

theorem Score.sge_total (s t : Score) : s.sge t ∨ t.sge s :=
  Nat.le_total _ _

theorem Score.isPos_iff (s : Score) : s.isPos = true ↔ 0 < s.val := by
  unfold Score.isPos Score.val
  rw [decide_eq_true_iff]
  constructor
  · intro h
    apply div_pos _ s.sqrt_den2_pos
    exact_mod_cast h
  · intro h
    by_contra hn
    have : s.dot = 0 := Nat.eq_zero_of_not_pos hn
    rw [this] at h
    simp at h

theorem Score.val_eq_zero_of_dot_eq_zero (s : Score) (h : s.dot = 0) : s.val = 0 := by
  unfold Score.val
  rw [h]
  simp

example : tokenize "Cats and dogs, are pets!" = ["cats", "and", "dogs", "are", "pets"] := by decide

example : getWordFreq ["cats", "dogs", "cats"] = [("cats", 2), ("dogs", 1)] := by decide

example : (cosineSimilarity [("cats", 1)] [("dogs", 2)]).dot = 0 := by decide

example : (cosineSimilarity [("cats", 1), ("dogs", 1)] [("cats", 1), ("dogs", 1)]).dot = 2 := by
  decide

/-- A scored candidate, `{ index: i, score }`, as pushed by the scoring
loop of `query`. -/
structure Cand where
  index : Nat
  score : Score

/-- The total preorder realised by the JS sort comparator
`(a, b) => b.score - a.score`: `a` may come before `b` exactly when
`b.score <= a.score` as real numbers. -/
def Cand.rel (a b : Cand) : Prop :=
  Score.sge a.score b.score

instance : DecidableRel Cand.rel :=
  fun a b => inferInstanceAs (Decidable (Score.sge a.score b.score))

/-- Descending score order with ties broken by ascending index: the
observable arrangement that a stable descending sort produces on a list
of candidates whose indices are strictly increasing. -/
def candLexGE (a b : Cand) : Prop :=
  b.score.val < a.score.val ∨ (a.score.val = b.score.val ∧ a.index ≤ b.index)

theorem candLexGE_of {a b : Cand} (hv : b.score.val ≤ a.score.val)
    (hi : a.index ≤ b.index) : candLexGE a b := by
  rcases lt_or_eq_of_le hv with h | h
  · exact Or.inl h
  · exact Or.inr ⟨h.symm, hi⟩

theorem candLexGE.val_le {a b : Cand} (h : candLexGE a b) : b.score.val ≤ a.score.val := by
  rcases h with h | h
  · exact le_of_lt h
  · exact le_of_eq h.1.symm

/-- `ECMAScript Array.prototype.sort` with a consistent comparator is
specified to be a stable sort; its observable result is modelled by
`List.insertionSort`, which is stable. -/
def sortCands (l : List Cand) : List Cand :=
  l.insertionSort Cand.rel

theorem sortCands_perm (l : List Cand) : (sortCands l).Perm l :=
  List.perm_insertionSort _ _

theorem sorted_orderedInsert_lex (x : Cand) (l : List Cand)
    (hs : l.Sorted candLexGE) (hx : ∀ y ∈ l, x.index < y.index) :
    (l.orderedInsert Cand.rel x).Sorted candLexGE := by
  induction l with
  | nil => simp [List.orderedInsert, List.sorted_singleton]
  | cons b t ih =>
    rw [List.orderedInsert]
    by_cases h : Cand.rel x b
    · rw [if_pos h]
      rw [List.sorted_cons]
      refine ⟨?_, hs⟩
      intro y hy
      have hvb : b.score.val ≤ x.score.val := (Score.sge_iff _ _).mp h
      rcases List.mem_cons.mp hy with rfl | hyt
      · exact candLexGE_of hvb (le_of_lt (hx y (List.mem_cons_self _ _)))
      · have hby : candLexGE b y := List.rel_of_sorted_cons hs y hyt
        exact candLexGE_of (le_trans hby.val_le hvb)
          (le_of_lt (hx y (List.mem_cons_of_mem _ hyt)))
    · rw [if_neg h]
      rw [List.sorted_cons]
      constructor
      · intro y hy
        rcases (List.mem_orderedInsert _).mp hy with rfl | hyt
        · have hlt : b.score.val < y.score.val → False := by
            intro hcon
            exact h ((Score.sge_iff _ _).mpr (le_of_lt hcon))
          have : y.score.val < b.score.val := by
            by_contra hnl
            rcases lt_or_eq_of_le (le_of_not_lt hnl) with hc | hc
            · exact hlt hc
            · exact h ((Score.sge_iff _ _).mpr (le_of_eq hc))
          exact Or.inl this
        · exact List.rel_of_sorted_cons hs y hyt
      · exact ih hs.of_cons (fun y hy => hx y (List.mem_cons_of_mem _ hy))

theorem sorted_sortCands (l : List Cand)
    (h : l.Pairwise (fun a b => a.index < b.index)) :
    (sortCands l).Sorted candLexGE := by
  induction l with
  | nil => simp [sortCands, List.insertionSort, List.sorted_nil]
  | cons x t ih =>
    have hp := List.pairwise_cons.mp h
    rw [sortCands, List.insertionSort]
    exact sorted_orderedInsert_lex x (sortCands t) (ih hp.2)
      (fun y hy => hp.1 y ((sortCands_perm t).subset hy))

/-- Canonical stored metadata, as built by `addDocuments`. -/
structure Metadata where
  title : String
  url : String
  publishedAt : String
  source : String
deriving DecidableEq

/-- A stored document: `{ text, metadata }`. -/
structure Doc where
  text : String
  metadata : Metadata
deriving DecidableEq

/-- A raw input object passed to `addDocuments`; a field the caller did
not set is modelled as `""` (the source reads fields only through falsy
checks and `|| `-defaults, which identify `undefined` and `""`). -/
structure InputDoc where
  text : String
  title : String
  url : String
  publishedAt : String
  source : String
deriving DecidableEq

/-- A retrieved source, `{ content, metadata }`. -/
structure Source where
  content : String
  metadata : Metadata
deriving DecidableEq

def defaultMetadata : Metadata := ⟨"", "", "", ""⟩

def defaultDoc : Doc := ⟨"", defaultMetadata⟩

/-- `s.substring(0, n)`: the first `n` characters. -/
def jsSubstring (s : String) (n : Nat) : String :=
  (s.toList.take n).asString

/-- `s.trim()`: strip leading and trailing whitespace. -/
def jsTrim (s : String) : String :=
  (((s.toList.dropWhile Char.isWhitespace).reverse.dropWhile
    Char.isWhitespace).reverse).asString

/-- The sources list built from the selected candidates:
`topK.map(item => ({ content: documents[item.index].text, metadata: documents[item.index].metadata }))`
(in both pipelines). -/
def mkSources (docs : List Doc) (topK : List Cand) : List Source :=
  topK.map (fun c =>
    Source.mk (docs.getD c.index defaultDoc).text (docs.getD c.index defaultDoc).metadata)

/-- The scoring loop of `query`: one candidate per stored vector, in
index order. -/
def scoreAll (qv : Vec) (vecs : List Vec) : List Cand :=
  vecs.enum.map (fun p => ⟨p.1, cosineSimilarity qv p.2⟩)

/-- `scores.sort((a, b) => b.score - a.score).slice(0, k).filter(item => item.score > 0)`. -/
def topKOf (qv : Vec) (vecs : List Vec) (k : Nat) : List Cand :=
  ((sortCands (scoreAll qv vecs)).take k).filter (fun c => c.score.isPos)

namespace RagNew

/-- The mutable fields of the rag.new.js `RAGPipeline` object (the JS
field named `this.initialized` is called `inited` here). -/
structure State where
  documents : List Doc
  documentVectors : List Vec
  inited : Bool
deriving DecidableEq

def State.init : State := ⟨[], [], false⟩

/-- External-world oracle for rag.new.js: the result of the Gemini call
(`none` models a thrown/failed call), the timestamp
`new Date().toISOString()`, and the rendering of
`(score * 100).toFixed(1)` (an IEEE-754 formatting that only flows into
the debug context string, modelled as an oracle). -/
structure Env where
  gemini : Option String
  now : String
  fmtScore : Score → String

/-- Counts of external-generation attempts and of executions of the
fallback-generator branch during one `query` invocation. -/
structure Trace where
  geminiCalls : Nat
  fallbackRuns : Nat
deriving DecidableEq

/-- The `_debug` field of a response: absent, `{ usedFallback, context }`,
or the `{ error, stack }` object built by the outer catch. -/
inductive Debug
  | missing
  | info (usedFallback : Bool) (context : String)
  | fault (message : String)
deriving DecidableEq

/-- A `query` response `{ answer, sources, _debug? }`. -/
structure Response where
  answer : String
  sources : List Source
  debug : Debug
deriving DecidableEq

def noDocsAnswer : String :=
  "I don\x27t have any articles to search through yet."

def noTokensAnswer : String :=
  "I couldn\x27t understand your query. Could you please rephrase it?"

def noMatchAnswer : String :=
  "I couldn\x27t find any relevant information to answer your question."

/-- The V8 message of the TypeError raised by `fallbackResponse += hole`
where `fallbackResponse` was declared with `const`. -/
def constMsg : String :=
  "Assignment to constant variable."

/-- The V8 message of the TypeError raised by reading `.metadata` of
`sourceDocs[0]` when `sourceDocs` is empty. -/
def undefinedMsg : String :=
  "Cannot read properties of undefined (reading \x27metadata\x27)"

/-- The answer built by the outer catch for a caught error with a
non-empty message. -/
def caughtAnswer (m : String) : String :=
  "I\x27m sorry, I encountered an error while processing your request. " ++
    ("The error was: " ++ m)

/-- The context block list joined by blank lines (rag.new.js lines
149–157); the `toFixed(1)` rendering of the relevance is the oracle
`fmt`. -/
def contextOf (fmt : Score → String) (docs : List Doc) (topK : List Cand) : String :=
  String.intercalate "\n\n" (topK.map (fun c =>
    let d := docs.getD c.index defaultDoc
    "Title: " ++ d.metadata.title ++ "\n" ++
    "Relevance: " ++ fmt c.score ++ "%\n" ++
    "Content: " ++ jsSubstring d.text 200 ++ "..."))

/-- The fallback template in the URL-less case (the URL clause is not
reached): `Based on the article "T": <first 150 chars>... `. -/
def fallbackAnswer (topDoc : Source) : String :=
  "Based on the article \x22" ++ topDoc.metadata.title ++ "\x22: " ++
    jsSubstring topDoc.content 150 ++ "... "

/-- Outcome of the retrieval part of `query` (rag.new.js lines 96–146):
one of the three canned early returns, or the retrieved sources plus
the assembled context. -/
inductive Retrieval
  | noDocs
  | noTokens
  | noMatch
  | found (sourceDocs : List Source) (context : String)

/-- Lines 96–157 of rag.new.js: the canned-response guards, the scoring
loop, top-K selection and context assembly. -/
def retrieve (env : Env) (st : State) (q : String) (k : Nat) : Retrieval :=
  if st.documents.length = 0 then .noDocs
  else
    let queryTokens := tokenize q
    if queryTokens.length = 0 then .noTokens
    else
      let queryVector := getWordFreq queryTokens
      let topK := topKOf queryVector st.documentVectors k
      if topK.length = 0 then .noMatch
      else
        let sourceDocs := mkSources st.documents topK
        .found sourceDocs (contextOf env.fmtScore st.documents topK)

/-- The `useFallback = true` instance of `query` (rag.new.js lines
89–178 with the Gemini branch unreachable).  In the fallback branch the
source declares `const fallbackResponse` and then executes
`fallbackResponse += hole` whenever the top document has a non-empty
URL; that reassignment throws a TypeError which the outer catch
converts into the apologetic error response. -/
def queryTrue (env : Env) (st : State) (queryText : String) (k : Nat) :
    Response × State × Trace :=
  let st1 : State := { st with inited := true }
  match retrieve env st1 queryText k with
  | .noDocs => (⟨noDocsAnswer, [], .missing⟩, st1, ⟨0, 0⟩)
  | .noTokens => (⟨noTokensAnswer, [], .missing⟩, st1, ⟨0, 0⟩)
  | .noMatch => (⟨noMatchAnswer, [], .missing⟩, st1, ⟨0, 0⟩)
  | .found sourceDocs context =>
    match sourceDocs with
    | [] => (⟨caughtAnswer undefinedMsg, [], .fault undefinedMsg⟩, st1, ⟨0, 1⟩)
    | topDoc :: _ =>
      if topDoc.metadata.url ≠ "" then
        (⟨caughtAnswer constMsg, [], .fault constMsg⟩, st1, ⟨0, 1⟩)
      else
        (⟨fallbackAnswer topDoc, sourceDocs, .info true context⟩, st1, ⟨0, 1⟩)

/-- `query(queryText, k = 3, useFallback = true)` from rag.new.js lines
89–225.  The state result records the `this.initialized` mutation; the
trace counts Gemini attempts and fallback-branch executions.  The
single self-invocation `this.query(queryText, k, true)` performed in
the Gemini catch when `useFallback` is still false is exactly the
`useFallback = true` instance `queryTrue` (the fallback branch returns
before the Gemini call, so re-entry cannot recurse further); expressing
it this way makes the bounded re-entry structural. -/
def query (env : Env) (st : State) (queryText : String) (k : Nat) (useFallback : Bool) :
    Response × State × Trace :=
  if useFallback then queryTrue env st queryText k
  else
    let st1 : State := { st with inited := true }
    match retrieve env st1 queryText k with
    | .noDocs => (⟨noDocsAnswer, [], .missing⟩, st1, ⟨0, 0⟩)
    | .noTokens => (⟨noTokensAnswer, [], .missing⟩, st1, ⟨0, 0⟩)
    | .noMatch => (⟨noMatchAnswer, [], .missing⟩, st1, ⟨0, 0⟩)
    | .found sourceDocs context =>
      match env.gemini with
      | some text => (⟨text, sourceDocs, .info false context⟩, st1, ⟨1, 0⟩)
      | none =>
        let r := queryTrue env st queryText k
        (r.1, r.2.1, ⟨r.2.2.geminiCalls + 1, r.2.2.fallbackRuns⟩)

/-- `query` with the JS default arguments `k = 3` and
`useFallback = true` (rag.new.js line 89). -/
def queryDefault (env : Env) (st : State) (queryText : String) :
    Response × State × Trace :=
  query env st queryText 3 true

/-- One iteration of the `addDocuments` loop (rag.new.js lines 58–83):
skip the input when `text` or `title` is missing, otherwise
canonicalise the metadata and append the document together with its
word-frequency vector. -/
def addStep (env : Env) (st : State) (doc : InputDoc) : State :=
  if doc.text = "" || doc.title = "" then st
  else
    let document : Doc :=
      ⟨doc.text,
       ⟨doc.title, doc.url,
        (if doc.publishedAt = "" then env.now else doc.publishedAt),
        (if doc.source = "" then "unknown" else doc.source)⟩⟩
    { st with
      documents := st.documents ++ [document],
      documentVectors := st.documentVectors ++ [getWordFreq (tokenize document.text)] }

/-- `addDocuments(documents)` from rag.new.js lines 55–87: initialise,
run the loop, return `true`.  No deduplication of any kind is
performed. -/
def addDocuments (env : Env) (st : State) (docs : List InputDoc) : State × Bool :=
  (docs.foldl (addStep env) { st with inited := true }, true)

/-- States reachable from the fresh pipeline by `addDocuments` calls
(rag.new.js has no `clear`). -/
inductive Reachable : State → Prop
  | init : Reachable State.init
  | add (env : Env) (docs : List InputDoc) {st : State} :
      Reachable st → Reachable (addDocuments env st docs).1

end RagNew

namespace Rag

/-- The mutable fields of the rag.js `RAGPipeline` object (the JS field
named `this.initialized` is called `inited` here; `urlSet` is the JS
`Set` of seen URL keys, modelled as its insertion-ordered list of
distinct elements). -/
structure State where
  documents : List Doc
  documentVectors : List Vec
  inited : Bool
  urlSet : List String
  collectionId : Option String
deriving DecidableEq

def State.init : State := ⟨[], [], false, [], none⟩

/-- External-world oracle for rag.js.  `listCollections`: result of the
GET on the Chroma collections endpoint (`none` = request threw, which
the code ignores; `some none` = responded but the named collection is
absent; `some (some id)` = found).  `createCollection`: result of the
collection POST (`none` = threw, caught, returning a null handle;
`some cid` = succeeded with optional id).  `embedQueryOk`: whether
`embedTexts([queryText])` returned a (nonempty) vector list.
`chromaQuery`: the nearest-neighbour response already shaped into
sources (`none` = request failed or response malformed).  `gemini`:
result of the generation call (`none` = threw). -/
structure Env where
  jina : Bool
  chroma : Bool
  now : String
  listCollections : Option (Option String)
  createCollection : Option (Option String)
  embedQueryOk : Bool
  chromaQuery : Option (List Source)
  gemini : Option String

/-- Counts of external-generation attempts and of executions of the
fallback-generator branch during one `query` invocation. -/
structure Trace where
  geminiCalls : Nat
  fallbackRuns : Nat
deriving DecidableEq

/-- The `_debug` field of a rag.js response: absent, or
`{ usedFallback, usedVectorStore?, context }` (the fallback response
carries no `usedVectorStore` field, modelled as `none`). -/
inductive Debug
  | missing
  | info (usedFallback : Bool) (usedVectorStore : Option Bool) (context : String)
deriving DecidableEq

/-- A rag.js `query` response. -/
structure Response where
  answer : String
  sources : List Source
  debug : Debug
deriving DecidableEq

def noDocsAnswer : String :=
  "I\x27m sorry, but I don\x27t have any articles to search through yet."

def noTokensAnswer : String :=
  "I couldn\x27t understand your query. Could you please rephrase it?"

def noMatchAnswer : String :=
  "I couldn\x27t find any relevant information to answer your question."

/-- The outer-catch answer of rag.js (no error message is appended). -/
def caughtAnswer : String :=
  "I\x27m sorry, I encountered an error while processing your request."

/-- `ensureChromaCollection()` from rag.js lines 317–344: look the named
collection up, create it when absent, cache the resolved id in
`this.collectionId`; any remote failure degrades to a null handle. -/
def ensureChromaCollection (env : Env) (st : State) : Option String × State :=
  if env.chroma = false then (none, st)
  else
    match env.listCollections with
    | some (some id) => (some id, { st with collectionId := some id })
    | _ =>
      match env.createCollection with
      | some cid => (cid, { st with collectionId := cid })
      | none => (none, st)

/-- The canonical document built by `addDocuments` (rag.js lines
380–388): defaults for absent fields, constant source tag. -/
def canonDoc (env : Env) (d : InputDoc) : Doc :=
  ⟨d.text,
   ⟨d.title, d.url,
    (if d.publishedAt = "" then env.now else d.publishedAt),
    "news_feed"⟩⟩

/-- The URL-deduplication loop of `addDocuments` (rag.js lines 390–397):
thread `(toIndex, urlSet)` through the batch; a document whose trimmed
URL key is non-empty and already seen is skipped, otherwise it is kept
and a non-empty key is recorded. -/
def dedupGo (toIndex : List Doc) (seen : List String) : List Doc → List Doc × List String
  | [] => (toIndex, seen)
  | d :: ds =>
    let urlKey := jsTrim d.metadata.url
    if urlKey ≠ "" ∧ urlKey ∈ seen then dedupGo toIndex seen ds
    else dedupGo (toIndex ++ [d]) (if urlKey = "" then seen else seen ++ [urlKey]) ds

/-- `addDocuments(documents)` from rag.js lines 376–430: canonicalise,
deduplicate by trimmed URL, optionally index into Chroma (which can
only touch `this.collectionId` in-process; the embed / upsert calls
return values the in-memory state never reads), and always append the
kept documents and their word-frequency vectors to the in-memory store.
The function returns `undefined`. -/
def addDocuments (env : Env) (st : State) (docs : List InputDoc) : State :=
  let st0 : State := { st with inited := true }
  let newDocs := docs.map (canonDoc env)
  let dd := dedupGo [] st0.urlSet newDocs
  let st1 : State := { st0 with urlSet := dd.2 }
  let st2 : State :=
    if env.jina && env.chroma then (ensureChromaCollection env st1).2 else st1
  { st2 with
    documents := st2.documents ++ dd.1,
    documentVectors := st2.documentVectors ++ dd.1.map (fun d => getWordFreq (tokenize d.text)) }

/-- `clear()` from rag.js lines 289–294: reset store, vectors and URL
key set together. -/
def clear (st : State) : State :=
  { st with documents := [], documentVectors := [], urlSet := [] }

/-- Outcome of source resolution in rag.js `query` (lines 442–490):
canned early return, or sources (from the vector store or the in-memory
lexical match). -/
inductive Retrieval
  | noDocs
  | noTokens
  | noMatch
  | found (sourceDocs : List Source) (usedVectorStore : Bool)

/-- Lines 443–459 of rag.js: the vector-store stage of `query`.  When
Jina and Chroma are both configured and every remote step succeeds
(collection ensured, query embedded, neighbours returned with a
documents array), it yields the Chroma sources; otherwise `none`.  The
state records the `collectionId` caching done by
`ensureChromaCollection`. -/
def vecStage (env : Env) (st : State) : Option (List Source) × State :=
  if env.jina && env.chroma then
    let ec := ensureChromaCollection env st
    match ec.1 with
    | some _ => (if env.embedQueryOk then env.chromaQuery else none, ec.2)
    | none => (none, ec.2)
  else (none, st)

/-- Lines 442–490 of rag.js: prefer Chroma retrieval when it produced
sources, otherwise fall back to the in-memory lexical scoring
(identical to rag.new.js). -/
def retrieve (env : Env) (st : State) (q : String) (k : Nat) : Retrieval × State :=
  let vs := vecStage env st
  match vs.1 with
  | some srcs => (.found srcs true, vs.2)
  | none =>
    let st := vs.2
    if st.documents.length = 0 then (.noDocs, st)
    else
      let queryTokens := tokenize q
      if queryTokens.length = 0 then (.noTokens, st)
      else
        let queryVector := getWordFreq queryTokens
        let topK := topKOf queryVector st.documentVectors k
        if topK.length = 0 then (.noMatch, st)
        else
          (.found (mkSources st.documents topK) false, st)

/-- The rag.js context blocks (lines 492–499): title, source URL and
the first 500 characters of the content. -/
def contextOf (sourceDocs : List Source) : String :=
  String.intercalate "\n\n" (sourceDocs.map (fun d =>
    "Title: " ++ d.metadata.title ++ "\n" ++
    "Source: " ++ d.metadata.url ++ "\n" ++
    "Content: " ++ jsSubstring d.content 500 ++ "..."))

/-- The rag.js fallback template (lines 504–508): unlike rag.new.js it
is built in a single expression and always carries the read-more
clause, printing `No URL provided` when the URL is absent. -/
def fallbackAnswer (topDoc : Source) : String :=
  "Based on the article \x22" ++ topDoc.metadata.title ++ "\x22: " ++
    jsSubstring topDoc.content 150 ++ "... " ++
    "[Read more: " ++
    (if topDoc.metadata.url = "" then "No URL provided" else topDoc.metadata.url) ++ "]"

/-- The `useFallback = true` instance of the rag.js `query` (lines
432–518 with the Gemini branch unreachable).  When the vector path
returned an empty source list, the fallback branch reads
`sourceDocs[0].metadata` of an empty array and the resulting TypeError
is converted by the outer catch into the plain apologetic response. -/
def queryTrue (env : Env) (st : State) (queryText : String) (k : Nat) :
    Response × State × Trace :=
  let st1 : State := { st with inited := true }
  let rs := retrieve env st1 queryText k
  match rs.1 with
  | .noDocs => (⟨noDocsAnswer, [], .missing⟩, rs.2, ⟨0, 0⟩)
  | .noTokens => (⟨noTokensAnswer, [], .missing⟩, rs.2, ⟨0, 0⟩)
  | .noMatch => (⟨noMatchAnswer, [], .missing⟩, rs.2, ⟨0, 0⟩)
  | .found sourceDocs _ =>
    let context := contextOf sourceDocs
    match sourceDocs with
    | [] => (⟨caughtAnswer, [], .missing⟩, rs.2, ⟨0, 1⟩)
    | topDoc :: _ =>
      (⟨fallbackAnswer topDoc, sourceDocs, .info true none context⟩, rs.2, ⟨0, 1⟩)

/-- `query(queryText, k = 3, useFallback = false)` from rag.js lines
432–560.  On a Gemini failure with `useFallback` still false the code
re-invokes `this.query(queryText, k, true)` on the same object; that
re-invocation is exactly the `useFallback = true` instance `queryTrue`
(the fallback branch returns before the Gemini call, so re-entry cannot
recurse further), applied to the state as already mutated by the first
pass. -/
def query (env : Env) (st : State) (queryText : String) (k : Nat) (useFallback : Bool) :
    Response × State × Trace :=
  if useFallback then queryTrue env st queryText k
  else
    let st1 : State := { st with inited := true }
    let rs := retrieve env st1 queryText k
    match rs.1 with
    | .noDocs => (⟨noDocsAnswer, [], .missing⟩, rs.2, ⟨0, 0⟩)
    | .noTokens => (⟨noTokensAnswer, [], .missing⟩, rs.2, ⟨0, 0⟩)
    | .noMatch => (⟨noMatchAnswer, [], .missing⟩, rs.2, ⟨0, 0⟩)
    | .found sourceDocs usedVec =>
      let context := contextOf sourceDocs
      match env.gemini with
      | some text => (⟨text, sourceDocs, .info false (some usedVec) context⟩, rs.2, ⟨1, 0⟩)
      | none =>
        let r := queryTrue env rs.2 queryText k
        (r.1, r.2.1, ⟨r.2.2.geminiCalls + 1, r.2.2.fallbackRuns⟩)

/-- `query` with the JS default arguments `k = 3` and
`useFallback = false` (rag.js line 432). -/
def queryDefault (env : Env) (st : State) (queryText : String) :
    Response × State × Trace :=
  query env st queryText 3 false

/-- States reachable from the fresh pipeline by `addDocuments` and
`clear` calls. -/
inductive Reachable : State → Prop
  | init : Reachable State.init
  | add (env : Env) (docs : List InputDoc) {st : State} :
      Reachable st → Reachable (addDocuments env st docs)
  | clearStep {st : State} : Reachable st → Reachable (clear st)

end Rag

/-! Helper lemmas about enumeration, scoring and top-K selection. -/

theorem le_fst_of_mem_enumFrom {α : Type _} {n : Nat} {l : List α} :
    ∀ p ∈ l.enumFrom n, n ≤ p.1 := by
  induction l generalizing n with
  | nil => intro p hp; simp [List.enumFrom] at hp
  | cons x xs ih =>
    intro p hp
    rw [List.enumFrom] at hp
    rcases List.mem_cons.mp hp with rfl | hp
    · exact le_refl n
    · exact Nat.le_of_succ_le (ih p hp)

theorem snd_mem_of_mem_enumFrom {α : Type _} {n : Nat} {l : List α} :
    ∀ p ∈ l.enumFrom n, p.2 ∈ l := by
  induction l generalizing n with
  | nil => intro p hp; simp [List.enumFrom] at hp
  | cons x xs ih =>
    intro p hp
    rw [List.enumFrom] at hp
    rcases List.mem_cons.mp hp with rfl | hp
    · exact List.mem_cons_self _ _
    · exact List.mem_cons_of_mem _ (ih p hp)

theorem pairwise_fst_lt_enumFrom {α : Type _} (n : Nat) (l : List α) :
    (l.enumFrom n).Pairwise (fun a b => a.1 < b.1) := by
  induction l generalizing n with
  | nil => simp [List.enumFrom]
  | cons x xs ih =>
    rw [List.enumFrom]
    refine List.Pairwise.cons ?_ (ih (n + 1))
    intro p hp
    exact Nat.lt_of_lt_of_le (Nat.lt_succ_self n) (le_fst_of_mem_enumFrom p hp)

theorem scoreAll_pairwise_index (qv : Vec) (vecs : List Vec) :
    (scoreAll qv vecs).Pairwise (fun a b => a.index < b.index) := by
  unfold scoreAll List.enum
  rw [List.pairwise_map]
  exact pairwise_fst_lt_enumFrom 0 vecs

theorem mem_scoreAll {qv : Vec} {vecs : List Vec} {c : Cand} (h : c ∈ scoreAll qv vecs) :
    ∃ v ∈ vecs, c.score = cosineSimilarity qv v := by
  unfold scoreAll List.enum at h
  rcases List.mem_map.mp h with ⟨p, hp, rfl⟩
  exact ⟨p.2, snd_mem_of_mem_enumFrom p hp, rfl⟩

theorem topKOf_subset (qv : Vec) (vecs : List Vec) (k : Nat) :
    ∀ c ∈ topKOf qv vecs k, c ∈ scoreAll qv vecs := by
  intro c hc
  unfold topKOf at hc
  exact (sortCands_perm _).subset (List.take_subset _ _ (List.mem_of_mem_filter hc))

theorem topKOf_length_le (qv : Vec) (vecs : List Vec) (k : Nat) :
    (topKOf qv vecs k).length ≤ k := by
  unfold topKOf
  exact le_trans (List.length_filter_le _ _) (List.length_take_le k _)

theorem topKOf_pos (qv : Vec) (vecs : List Vec) (k : Nat) :
    ∀ c ∈ topKOf qv vecs k, 0 < c.score.val := by
  intro c hc
  unfold topKOf at hc
  exact (Score.isPos_iff _).mp (List.mem_filter.mp hc).2

/-- If every stored vector scores non-positively against the query
vector, the top-K selection is empty. -/
theorem topKOf_eq_nil (qv : Vec) (vecs : List Vec) (k : Nat)
    (h : ∀ v ∈ vecs, (cosineSimilarity qv v).val ≤ 0) :
    topKOf qv vecs k = [] := by
  unfold topKOf
  rw [List.filter_eq_nil_iff]
  intro c hc
  rcases mem_scoreAll ((sortCands_perm _).subset (List.take_subset _ _ hc)) with ⟨v, hv, hs⟩
  intro hpos
  have := (Score.isPos_iff _).mp hpos
  rw [hs] at this
  exact absurd (h v hv) (not_le.mpr this)

/-! Helper lemmas for the rag.new.js pipeline. -/

namespace RagNew

theorem retrieve_noDocs (env : Env) (st : State) (q : String) (k : Nat)
    (h : st.documents = []) : retrieve env st q k = .noDocs := by
  unfold retrieve
  simp [h]

theorem retrieve_noTokens (env : Env) (st : State) (q : String) (k : Nat)
    (h : st.documents ≠ []) (h2 : tokenize q = []) :
    retrieve env st q k = .noTokens := by
  unfold retrieve
  simp [List.length_eq_zero, h, h2]

theorem retrieve_noMatch (env : Env) (st : State) (q : String) (k : Nat)
    (h : st.documents ≠ []) (h2 : tokenize q ≠ [])
    (h3 : topKOf (getWordFreq (tokenize q)) st.documentVectors k = []) :
    retrieve env st q k = .noMatch := by
  unfold retrieve
  simp [List.length_eq_zero, h, h2, h3]

theorem retrieve_found (env : Env) (st : State) (q : String) (k : Nat)
    (h : st.documents ≠ []) (h2 : tokenize q ≠ [])
    (h3 : topKOf (getWordFreq (tokenize q)) st.documentVectors k ≠ []) :
    retrieve env st q k = .found
      (mkSources st.documents (topKOf (getWordFreq (tokenize q)) st.documentVectors k))
      (contextOf env.fmtScore st.documents
        (topKOf (getWordFreq (tokenize q)) st.documentVectors k)) := by
  unfold retrieve
  simp [List.length_eq_zero, h, h2, h3]

theorem queryTrue_state (env : Env) (st : State) (q : String) (k : Nat) :
    (queryTrue env st q k).2.1 = { st with inited := true } := by
  unfold queryTrue
  cases hr : retrieve env { st with inited := true } q k with
  | noDocs => simp [hr]
  | noTokens => simp [hr]
  | noMatch => simp [hr]
  | found srcs ctx =>
    cases srcs with
    | nil => simp [hr]
    | cons d tl =>
      by_cases hu : d.metadata.url = "" <;> simp [hr, hu]

theorem queryTrue_trace (env : Env) (st : State) (q : String) (k : Nat) :
    (queryTrue env st q k).2.2.geminiCalls = 0 ∧
      (queryTrue env st q k).2.2.fallbackRuns ≤ 1 := by
  unfold queryTrue
  cases hr : retrieve env { st with inited := true } q k with
  | noDocs => simp [hr]
  | noTokens => simp [hr]
  | noMatch => simp [hr]
  | found srcs ctx =>
    cases srcs with
    | nil => simp [hr]
    | cons d tl =>
      by_cases hu : d.metadata.url = "" <;> simp [hr, hu]

theorem query_state (env : Env) (st : State) (q : String) (k : Nat) (fb : Bool) :
    (query env st q k fb).2.1 = { st with inited := true } := by
  unfold query
  cases fb with
  | true => simpa using queryTrue_state env st q k
  | false =>
    simp only [Bool.false_eq_true, if_false]
    cases hr : retrieve env { st with inited := true } q k with
    | noDocs => simp [hr]
    | noTokens => simp [hr]
    | noMatch => simp [hr]
    | found srcs ctx =>
      cases hg : env.gemini with
      | some t => simp [hr, hg]
      | none => simpa [hr, hg] using queryTrue_state env st q k

theorem query_trace (env : Env) (st : State) (q : String) (k : Nat) (fb : Bool) :
    (query env st q k fb).2.2.geminiCalls ≤ 1 ∧
      (query env st q k fb).2.2.fallbackRuns ≤ 1 := by
  unfold query
  cases fb with
  | true =>
    have h := queryTrue_trace env st q k
    simp only [if_true]
    exact ⟨le_trans (le_of_eq h.1) (by simp), h.2⟩
  | false =>
    simp only [Bool.false_eq_true, if_false]
    cases hr : retrieve env { st with inited := true } q k with
    | noDocs => simp [hr]
    | noTokens => simp [hr]
    | noMatch => simp [hr]
    | found srcs ctx =>
      cases hg : env.gemini with
      | some t => simp [hr, hg]
      | none =>
        have h := queryTrue_trace env st q k
        simp only [hr, hg]
        exact ⟨by simp [h.1], by simpa using h.2⟩

/-- The canonical document built by `addStep` for a kept input. -/
def canonDocNew (env : Env) (d : InputDoc) : Doc :=
  ⟨d.text,
   ⟨d.title, d.url,
    (if d.publishedAt = "" then env.now else d.publishedAt),
    (if d.source = "" then "unknown" else d.source)⟩⟩

/-- The documents an `addDocuments` call appends: the canonicalised
inputs that have both `text` and `title`. -/
def keptDocs (env : Env) (docs : List InputDoc) : List Doc :=
  (docs.filter (fun d => !(d.text = "" || d.title = ""))).map (canonDocNew env)

theorem addFold_shape (env : Env) : ∀ (docs : List InputDoc) (st : State),
    (docs.foldl (addStep env) st).documents = st.documents ++ keptDocs env docs ∧
    (docs.foldl (addStep env) st).documentVectors =
      st.documentVectors ++ (keptDocs env docs).map (fun d => getWordFreq (tokenize d.text)) ∧
    (docs.foldl (addStep env) st).inited = st.inited := by
  intro docs
  induction docs with
  | nil => intro st; simp [keptDocs]
  | cons d ds ih =>
    intro st
    rw [List.foldl_cons]
    by_cases hd : (d.text = "" || d.title = "") = true
    · have h1 : addStep env st d = st := by
        unfold addStep
        rw [if_pos hd]
      have h2 : keptDocs env (d :: ds) = keptDocs env ds := by
        simp only [keptDocs, List.filter_cons, hd]
        simp
      rw [h1, h2]
      exact ih st
    · have h1 : addStep env st d =
          { st with
            documents := st.documents ++ [canonDocNew env d],
            documentVectors := st.documentVectors ++ [getWordFreq (tokenize d.text)] } := by
        unfold addStep
        rw [if_neg hd]
        rfl
      have h2 : keptDocs env (d :: ds) = canonDocNew env d :: keptDocs env ds := by
        simp only [keptDocs, List.filter_cons, hd]
        simp
      rw [h1, h2]
      rcases ih ({ st with
        documents := st.documents ++ [canonDocNew env d],
        documentVectors := st.documentVectors ++ [getWordFreq (tokenize d.text)] }) with
        ⟨ha, hb, hc⟩
      refine ⟨?_, ?_, hc⟩
      · rw [ha]; simp
      · rw [hb]; simp [canonDocNew]

theorem addDocuments_shape (env : Env) (st : State) (docs : List InputDoc) :
    ((addDocuments env st docs).1).documents = st.documents ++ keptDocs env docs ∧
    ((addDocuments env st docs).1).documentVectors =
      st.documentVectors ++ (keptDocs env docs).map (fun d => getWordFreq (tokenize d.text)) ∧
    (addDocuments env st docs).2 = true := by
  rcases addFold_shape env docs { st with inited := true } with ⟨ha, hb, _⟩
  exact ⟨ha, hb, rfl⟩

theorem reachable_len {st : State} (h : Reachable st) :
    st.documents.length = st.documentVectors.length := by
  induction h with
  | init => rfl
  | add env docs h ih =>
    rcases addDocuments_shape env _ docs with ⟨ha, hb, _⟩
    rw [ha, hb]
    simp [ih]

end RagNew

/-! Helper lemmas for the rag.js pipeline. -/

namespace Rag

/-- Number of documents of a stored list whose trimmed URL is `u`. -/
def countKey (l : List Doc) (u : String) : Nat :=
  (l.filter (fun d => jsTrim d.metadata.url = u)).length

/-- Number of input documents whose trimmed URL is `u`. -/
def countKeyIn (docs : List InputDoc) (u : String) : Nat :=
  (docs.filter (fun d => jsTrim d.url = u)).length

/-- How many documents of a batch survive URL deduplication against the
seen-key set `seen`. -/
def numNew (seen : List String) : List Doc → Nat
  | [] => 0
  | d :: ds =>
    let k := jsTrim d.metadata.url
    if k ≠ "" ∧ k ∈ seen then numNew seen ds
    else numNew (if k = "" then seen else seen ++ [k]) ds + 1

theorem ensure_state (env : Env) (st : State) :
    ((ensureChromaCollection env st).2).documents = st.documents ∧
    ((ensureChromaCollection env st).2).documentVectors = st.documentVectors ∧
    ((ensureChromaCollection env st).2).urlSet = st.urlSet ∧
    ((ensureChromaCollection env st).2).inited = st.inited := by
  unfold ensureChromaCollection
  split
  · exact ⟨rfl, rfl, rfl, rfl⟩
  · split
    · exact ⟨rfl, rfl, rfl, rfl⟩
    · split
      · exact ⟨rfl, rfl, rfl, rfl⟩
      · exact ⟨rfl, rfl, rfl, rfl⟩

theorem ensure_documents (env : Env) (st : State) :
    ((ensureChromaCollection env st).2).documents = st.documents :=
  (ensure_state env st).1

theorem ensure_vectors (env : Env) (st : State) :
    ((ensureChromaCollection env st).2).documentVectors = st.documentVectors :=
  (ensure_state env st).2.1

theorem ensure_urlSet (env : Env) (st : State) :
    ((ensureChromaCollection env st).2).urlSet = st.urlSet :=
  (ensure_state env st).2.2.1

theorem ensure_inited (env : Env) (st : State) :
    ((ensureChromaCollection env st).2).inited = st.inited :=
  (ensure_state env st).2.2.2

theorem vecStage_state (env : Env) (st : State) :
    ((vecStage env st).2).documents = st.documents ∧
    ((vecStage env st).2).documentVectors = st.documentVectors ∧
    ((vecStage env st).2).urlSet = st.urlSet ∧
    ((vecStage env st).2).inited = st.inited := by
  unfold vecStage
  split
  · cases hec : (ensureChromaCollection env st).1 with
    | some id => simp [hec, ensure_documents, ensure_vectors, ensure_urlSet, ensure_inited]
    | none => simp [hec, ensure_documents, ensure_vectors, ensure_urlSet, ensure_inited]
  · exact ⟨rfl, rfl, rfl, rfl⟩

theorem vecStage_documents (env : Env) (st : State) :
    ((vecStage env st).2).documents = st.documents :=
  (vecStage_state env st).1

theorem vecStage_vectors (env : Env) (st : State) :
    ((vecStage env st).2).documentVectors = st.documentVectors :=
  (vecStage_state env st).2.1

theorem vecStage_urlSet (env : Env) (st : State) :
    ((vecStage env st).2).urlSet = st.urlSet :=
  (vecStage_state env st).2.2.1

theorem retrieve_state (env : Env) (st : State) (q : String) (k : Nat) :
    ((retrieve env st q k).2).documents = st.documents ∧
    ((retrieve env st q k).2).documentVectors = st.documentVectors ∧
    ((retrieve env st q k).2).urlSet = st.urlSet := by
  unfold retrieve
  cases hv : (vecStage env st).1 with
  | some srcs =>
    simp [hv, vecStage_documents, vecStage_vectors, vecStage_urlSet]
  | none =>
    simp only [hv]
    split
    · exact ⟨vecStage_documents _ _, vecStage_vectors _ _, vecStage_urlSet _ _⟩
    · split
      · exact ⟨vecStage_documents _ _, vecStage_vectors _ _, vecStage_urlSet _ _⟩
      · split
        · exact ⟨vecStage_documents _ _, vecStage_vectors _ _, vecStage_urlSet _ _⟩
        · exact ⟨vecStage_documents _ _, vecStage_vectors _ _, vecStage_urlSet _ _⟩

theorem retrieve_documents (env : Env) (st : State) (q : String) (k : Nat) :
    ((retrieve env st q k).2).documents = st.documents :=
  (retrieve_state env st q k).1

theorem retrieve_vectors (env : Env) (st : State) (q : String) (k : Nat) :
    ((retrieve env st q k).2).documentVectors = st.documentVectors :=
  (retrieve_state env st q k).2.1

theorem retrieve_urlSet (env : Env) (st : State) (q : String) (k : Nat) :
    ((retrieve env st q k).2).urlSet = st.urlSet :=
  (retrieve_state env st q k).2.2

theorem queryTrue_preserve (env : Env) (st : State) (q : String) (k : Nat) :
    ((queryTrue env st q k).2.1).documents = st.documents ∧
    ((queryTrue env st q k).2.1).documentVectors = st.documentVectors ∧
    ((queryTrue env st q k).2.1).urlSet = st.urlSet := by
  unfold queryTrue
  cases hr : (retrieve env { st with inited := true } q k).1 with
  | noDocs => simpa [hr] using retrieve_state env { st with inited := true } q k
  | noTokens => simpa [hr] using retrieve_state env { st with inited := true } q k
  | noMatch => simpa [hr] using retrieve_state env { st with inited := true } q k
  | found srcs uv =>
    cases srcs with
    | nil => simpa [hr] using retrieve_state env { st with inited := true } q k
    | cons d tl => simpa [hr] using retrieve_state env { st with inited := true } q k

theorem queryTrue_calls (env : Env) (st : State) (q : String) (k : Nat) :
    (queryTrue env st q k).2.2.geminiCalls = 0 ∧
      (queryTrue env st q k).2.2.fallbackRuns ≤ 1 := by
  unfold queryTrue
  cases hr : (retrieve env { st with inited := true } q k).1 with
  | noDocs => simp [hr]
  | noTokens => simp [hr]
  | noMatch => simp [hr]
  | found srcs uv =>
    cases srcs with
    | nil => simp [hr]
    | cons d tl => simp [hr]

theorem query_preserve (env : Env) (st : State) (q : String) (k : Nat) (fb : Bool) :
    ((query env st q k fb).2.1).documents = st.documents ∧
    ((query env st q k fb).2.1).documentVectors = st.documentVectors ∧
    ((query env st q k fb).2.1).urlSet = st.urlSet := by
  unfold query
  cases fb with
  | true => simpa using queryTrue_preserve env st q k
  | false =>
    simp only [Bool.false_eq_true, if_false]
    cases hr : (retrieve env { st with inited := true } q k).1 with
    | noDocs => simpa [hr] using retrieve_state env { st with inited := true } q k
    | noTokens => simpa [hr] using retrieve_state env { st with inited := true } q k
    | noMatch => simpa [hr] using retrieve_state env { st with inited := true } q k
    | found srcs uv =>
      cases hg : env.gemini with
      | some t => simpa [hr, hg] using retrieve_state env { st with inited := true } q k
      | none =>
        rcases queryTrue_preserve env (retrieve env { st with inited := true } q k).2 q k with
          ⟨ha, hb, hc⟩
        rcases retrieve_state env { st with inited := true } q k with ⟨hd, he, hf⟩
        simp only [hr, hg]
        exact ⟨by rw [ha, hd], by rw [hb, he], by rw [hc, hf]⟩

theorem query_calls (env : Env) (st : State) (q : String) (k : Nat) (fb : Bool) :
    (query env st q k fb).2.2.geminiCalls ≤ 1 ∧
      (query env st q k fb).2.2.fallbackRuns ≤ 1 := by
  unfold query
  cases fb with
  | true =>
    have h := queryTrue_calls env st q k
    simp only [if_true]
    exact ⟨le_trans (le_of_eq h.1) (by simp), h.2⟩
  | false =>
    simp only [Bool.false_eq_true, if_false]
    cases hr : (retrieve env { st with inited := true } q k).1 with
    | noDocs => simp [hr]
    | noTokens => simp [hr]
    | noMatch => simp [hr]
    | found srcs uv =>
      cases hg : env.gemini with
      | some t => simp [hr, hg]
      | none =>
        have h := queryTrue_calls env (retrieve env { st with inited := true } q k).2 q k
        simp only [hr, hg]
        exact ⟨by simp [h.1], by simpa using h.2⟩

end Rag

namespace Rag

theorem countKey_cons (d : Doc) (l : List Doc) (u : String) :
    countKey (d :: l) u =
      (if jsTrim d.metadata.url = u then 1 else 0) + countKey l u := by
  unfold countKey
  rw [List.filter_cons]
  by_cases h : jsTrim d.metadata.url = u
  · simp [h, Nat.add_comm]
  · simp [h]

theorem countKey_append (l₁ l₂ : List Doc) (u : String) :
    countKey (l₁ ++ l₂) u = countKey l₁ u + countKey l₂ u := by
  unfold countKey
  rw [List.filter_append, List.length_append]

theorem mem_ite_seen (u kd : String) (s : List String) :
    (u ∈ (if kd = "" then s else s ++ [kd])) ↔ (u ∈ s ∨ (kd ≠ "" ∧ u = kd)) := by
  by_cases hk : kd = ""
  · simp [hk]
  · simp [hk, List.mem_append]

theorem dedupGo_count {u : String} (hu : u ≠ "") :
    ∀ (ds t : List Doc) (s : List String),
      countKey (dedupGo t s ds).1 u =
        countKey t u + (if u ∈ s then 0 else min 1 (countKey ds u)) := by
  intro ds
  induction ds with
  | nil =>
    intro t s
    simp [dedupGo, countKey]
  | cons d ds ih =>
    intro t s
    simp only [dedupGo]
    by_cases hks : jsTrim d.metadata.url ≠ "" ∧ jsTrim d.metadata.url ∈ s
    · rw [if_pos hks, ih t s]
      by_cases hus : u ∈ s
      · simp [hus]
      · have hne : ¬ jsTrim d.metadata.url = u := fun he => hus (he ▸ hks.2)
        rw [countKey_cons]
        simp [hus, hne]
    · rw [if_neg hks, ih (t ++ [d]) _]
      by_cases hdu : jsTrim d.metadata.url = u
      · have hkne : jsTrim d.metadata.url ≠ "" := by rw [hdu]; exact hu
        have hnotin : jsTrim d.metadata.url ∉ s := fun hin => hks ⟨hkne, hin⟩
        have husn : u ∉ s := by rw [← hdu]; exact hnotin
        have hins : u ∈ (if jsTrim d.metadata.url = "" then s else s ++ [jsTrim d.metadata.url]) := by
          rw [mem_ite_seen]
          exact Or.inr ⟨hkne, hdu.symm⟩
        have e1 : countKey (t ++ [d]) u = countKey t u + 1 := by
          rw [countKey_append, countKey_cons]
          simp [hdu, countKey]
        have e2 : countKey (d :: ds) u = 1 + countKey ds u := by
          rw [countKey_cons, if_pos hdu]
        rw [if_pos hins, if_neg husn, e1, e2]
        omega
      · have hmem : u ∈ (if jsTrim d.metadata.url = "" then s else s ++ [jsTrim d.metadata.url]) ↔ u ∈ s := by
          rw [mem_ite_seen]
          constructor
          · rintro (h | ⟨_, h⟩)
            · exact h
            · exact absurd h.symm hdu
          · exact Or.inl
        have e1 : countKey (t ++ [d]) u = countKey t u := by
          rw [countKey_append, countKey_cons]
          simp [hdu, countKey]
        have e2 : countKey (d :: ds) u = countKey ds u := by
          rw [countKey_cons, if_neg hdu]
          omega
        rw [e1, e2]
        by_cases hus : u ∈ s
        · rw [if_pos (hmem.mpr hus), if_pos hus]
        · rw [if_neg (fun h => hus (hmem.mp h)), if_neg hus]

theorem dedupGo_mem {u : String} (hu : u ≠ "") :
    ∀ (ds t : List Doc) (s : List String),
      (u ∈ (dedupGo t s ds).2 ↔ u ∈ s ∨ 0 < countKey ds u) := by
  intro ds
  induction ds with
  | nil =>
    intro t s
    simp [dedupGo, countKey]
  | cons d ds ih =>
    intro t s
    simp only [dedupGo]
    by_cases hks : jsTrim d.metadata.url ≠ "" ∧ jsTrim d.metadata.url ∈ s
    · rw [if_pos hks, ih t s, countKey_cons]
      by_cases hdu : jsTrim d.metadata.url = u
      · have : u ∈ s := hdu ▸ hks.2
        simp [this, hdu]
      · simp [hdu]
    · rw [if_neg hks, ih (t ++ [d]) _, mem_ite_seen, countKey_cons]
      by_cases hdu : jsTrim d.metadata.url = u
      · have hkne : jsTrim d.metadata.url ≠ "" := by rw [hdu]; exact hu
        simp [hdu, hkne]
        exact Or.inl (Or.inr hu)
      · have : ¬ (jsTrim d.metadata.url ≠ "" ∧ u = jsTrim d.metadata.url) := by
          rintro ⟨_, h⟩
          exact hdu h.symm
        simp [hdu, this]

theorem dedupGo_count_empty :
    ∀ (ds t : List Doc) (s : List String),
      countKey (dedupGo t s ds).1 "" = countKey t "" + countKey ds "" := by
  intro ds
  induction ds with
  | nil =>
    intro t s
    simp [dedupGo, countKey]
  | cons d ds ih =>
    intro t s
    simp only [dedupGo]
    by_cases hks : jsTrim d.metadata.url ≠ "" ∧ jsTrim d.metadata.url ∈ s
    · rw [if_pos hks, ih t s, countKey_cons]
      simp [hks.1]
    · rw [if_neg hks, ih (t ++ [d]) _]
      have e1 : countKey (t ++ [d]) "" =
          countKey t "" + (if jsTrim d.metadata.url = "" then 1 else 0) := by
        rw [countKey_append, countKey_cons]
        simp [countKey]
      have e2 : countKey (d :: ds) "" =
          (if jsTrim d.metadata.url = "" then 1 else 0) + countKey ds "" :=
        countKey_cons _ _ _
      rw [e1, e2]
      omega

theorem dedupGo_len :
    ∀ (ds t : List Doc) (s : List String),
      (dedupGo t s ds).1.length = t.length + numNew s ds := by
  intro ds
  induction ds with
  | nil =>
    intro t s
    simp [dedupGo, numNew]
  | cons d ds ih =>
    intro t s
    simp only [dedupGo, numNew]
    by_cases hks : jsTrim d.metadata.url ≠ "" ∧ jsTrim d.metadata.url ∈ s
    · rw [if_pos hks, if_pos hks, ih t s]
    · rw [if_neg hks, if_neg hks, ih (t ++ [d]) _]
      simp
      omega

end Rag

namespace Rag

theorem addDocuments_parts (env : Env) (st : State) (docs : List InputDoc) :
    (addDocuments env st docs).documents
        = st.documents ++ (dedupGo [] st.urlSet (docs.map (canonDoc env))).1 ∧
    (addDocuments env st docs).documentVectors
        = st.documentVectors ++
          (dedupGo [] st.urlSet (docs.map (canonDoc env))).1.map
            (fun d => getWordFreq (tokenize d.text)) ∧
    (addDocuments env st docs).urlSet
        = (dedupGo [] st.urlSet (docs.map (canonDoc env))).2 := by
  unfold addDocuments
  by_cases hj : (env.jina && env.chroma) = true
  · simp [hj, ensure_documents, ensure_vectors, ensure_urlSet]
  · simp [hj]

/-- The store invariant maintained by rag.js: parallel lengths, at most
one stored document per non-empty trimmed URL, and the URL key set is
exactly the set of non-empty trimmed URLs of the stored documents. -/
def Inv (st : State) : Prop :=
  st.documents.length = st.documentVectors.length ∧
  ∀ u : String, u ≠ "" →
    countKey st.documents u ≤ 1 ∧ (u ∈ st.urlSet ↔ 0 < countKey st.documents u)

theorem inv_init : Inv State.init := by
  constructor
  · rfl
  · intro u _
    constructor
    · simp [State.init, countKey]
    · simp [State.init, countKey]

theorem inv_clear {st : State} (_ : Inv st) : Inv (clear st) := by
  constructor
  · rfl
  · intro u _
    constructor
    · simp [clear, countKey]
    · simp [clear, countKey]

theorem inv_add (env : Env) {st : State} (docs : List InputDoc) (h : Inv st) :
    Inv (addDocuments env st docs) := by
  rcases addDocuments_parts env st docs with ⟨ha, hb, hc⟩
  constructor
  · rw [ha, hb]
    simp [h.1]
  · intro u hu
    have hcount := dedupGo_count hu (docs.map (canonDoc env)) [] st.urlSet
    have hmem := dedupGo_mem hu (docs.map (canonDoc env)) [] st.urlSet
    have hzero : countKey ([] : List Doc) u = 0 := rfl
    rcases h.2 u hu with ⟨hle, hiff⟩
    constructor
    · rw [ha, countKey_append, hcount, hzero]
      by_cases hus : u ∈ st.urlSet
      · rw [if_pos hus]
        omega
      · rw [if_neg hus]
        have : countKey st.documents u = 0 := by
          by_contra hne
          exact hus (hiff.mpr (Nat.pos_of_ne_zero hne))
        omega
    · rw [ha, countKey_append, hc, hmem, hcount, hzero]
      by_cases hus : u ∈ st.urlSet
      · have hpos := hiff.mp hus
        rw [if_pos hus]
        constructor
        · intro _
          omega
        · intro _
          exact Or.inl hus
      · have : countKey st.documents u = 0 := by
          by_contra hne
          exact hus (hiff.mpr (Nat.pos_of_ne_zero hne))
        rw [if_neg hus]
        constructor
        · rintro (hin | hpos)
          · exact absurd hin hus
          · omega
        · intro hpos
          right
          omega

theorem reachable_inv {st : State} (h : Reachable st) : Inv st := by
  induction h with
  | init => exact inv_init
  | add env docs h ih => exact inv_add env docs ih
  | clearStep h ih => exact inv_clear ih

end Rag

/-! Helper lemmas for the cosine-similarity claims. -/

theorem foldl_simStep_normA (a b : Vec) :
    ∀ (l : List String) (t : Nat × Nat × Nat),
      (l.foldl (simStep a b) t).2.1 =
        t.2.1 + (l.map (fun w => getD a w * getD a w)).sum := by
  intro l
  induction l with
  | nil => intro t; simp
  | cons w ws ih =>
    intro t
    rw [List.foldl_cons, ih]
    simp [simStep]
    omega

theorem foldl_simStep_diag (v : Vec) :
    ∀ (l : List String) (t : Nat × Nat × Nat), t.1 = t.2.1 → t.2.1 = t.2.2 →
      ((l.foldl (simStep v v) t).1 = (l.foldl (simStep v v) t).2.1 ∧
       (l.foldl (simStep v v) t).2.1 = (l.foldl (simStep v v) t).2.2) := by
  intro l
  induction l with
  | nil =>
    intro t h1 h2
    exact ⟨h1, h2⟩
  | cons w ws ih =>
    intro t h1 h2
    rw [List.foldl_cons]
    exact ih _ (by simp [simStep, h1]) (by simp [simStep, h2])

theorem simSums_self (v : Vec) :
    (simSums v v).1 = (simSums v v).2.1 ∧ (simSums v v).2.1 = (simSums v v).2.2 :=
  foldl_simStep_diag v (keyUnion v v) (0, 0, 0) rfl rfl

theorem mem_keyUnion_self {v : Vec} {w : String} (hw : getD v w ≠ 0) :
    w ∈ keyUnion v v := by
  unfold getD at hw
  cases hf : v.find? (fun p => p.1 = w) with
  | none => rw [hf] at hw; simp at hw
  | some p =>
    have hp : p.1 = w := by simpa using List.find?_some hf
    have hpm := List.mem_of_find?_eq_some hf
    unfold keyUnion
    rw [List.mem_dedup, List.mem_append]
    exact Or.inl (hp ▸ List.mem_map_of_mem Prod.fst hpm)

theorem selfNorm_pos {v : Vec} (hv : ∃ w, getD v w ≠ 0) :
    0 < (simSums v v).2.1 := by
  rcases hv with ⟨w, hw⟩
  unfold simSums
  rw [foldl_simStep_normA]
  have h1 : getD v w * getD v w ≤ (List.map (fun x => getD v x * getD v x) (keyUnion v v)).sum :=
    List.le_sum_of_mem (List.mem_map_of_mem _ (mem_keyUnion_self hw))
  have h2 : 0 < getD v w * getD v w := Nat.mul_pos (Nat.pos_of_ne_zero hw) (Nat.pos_of_ne_zero hw)
  omega

/-! Response projections and concrete fixtures used in witnesses and
counterexamples. -/

/-- The `usedFallback` component of a rag.new.js response, when its
debug object carries one. -/
def RagNew.Response.usedFallback : RagNew.Response → Option Bool
  | ⟨_, _, .info b _⟩ => some b
  | _ => none

/-- The `usedFallback` component of a rag.js response, when its debug
object carries one. -/
def Rag.Response.usedFallback : Rag.Response → Option Bool
  | ⟨_, _, .info b _ _⟩ => some b
  | _ => none

/-- Oracle for rag.new.js with a failing generation service. -/
def envX : RagNew.Env := ⟨none, "2024-01-01T00:00:00.000Z", fun _ => ""⟩

/-- Oracle for rag.new.js with a working generation service. -/
def envG : RagNew.Env := ⟨some "llm answer", "2024-01-01T00:00:00.000Z", fun _ => ""⟩

/-- Oracle for rag.js with no vector store configured and a working
generation service. -/
def envR : Rag.Env :=
  ⟨false, false, "2024-01-01T00:00:00.000Z", none, none, false, none, some "llm answer"⟩

/-- Oracle for rag.js with no vector store configured and a failing
generation service. -/
def envRX : Rag.Env :=
  ⟨false, false, "2024-01-01T00:00:00.000Z", none, none, false, none, none⟩

/-- An input document that has a URL. -/
def inA : InputDoc := ⟨"cats and dogs are pets", "A", "u1", "2024", "mock"⟩

/-- A second input document with the same URL as `inA`. -/
def inA2 : InputDoc := ⟨"more facts about cats and dogs", "A2", "u1", "2024", "mock"⟩

/-- An input document without a URL. -/
def inB : InputDoc := ⟨"stock markets rose today", "B", "", "2024", "mock"⟩

/-- A rag.new.js store holding only `inA`. -/
def stA : RagNew.State := (RagNew.addDocuments envX RagNew.State.init [inA]).1

/-- A rag.new.js store holding only `inB`. -/
def stB : RagNew.State := (RagNew.addDocuments envX RagNew.State.init [inB]).1

/-- A rag.js store holding only `inA`. -/
def stR : Rag.State := Rag.addDocuments envR Rag.State.init [inA]

namespace RagNew

theorem query_noDocs (env : Env) (st : State) (q : String) (k : Nat) (fb : Bool)
    (h : retrieve env { st with inited := true } q k = .noDocs) :
    query env st q k fb =
      (⟨noDocsAnswer, [], .missing⟩, { st with inited := true }, ⟨0, 0⟩) := by
  cases fb <;> simp [query, queryTrue, h]

theorem query_noTokens (env : Env) (st : State) (q : String) (k : Nat) (fb : Bool)
    (h : retrieve env { st with inited := true } q k = .noTokens) :
    query env st q k fb =
      (⟨noTokensAnswer, [], .missing⟩, { st with inited := true }, ⟨0, 0⟩) := by
  cases fb <;> simp [query, queryTrue, h]

theorem query_noMatch (env : Env) (st : State) (q : String) (k : Nat) (fb : Bool)
    (h : retrieve env { st with inited := true } q k = .noMatch) :
    query env st q k fb =
      (⟨noMatchAnswer, [], .missing⟩, { st with inited := true }, ⟨0, 0⟩) := by
  cases fb <;> simp [query, queryTrue, h]

theorem queryTrue_found_trace (env : Env) (st : State) (q : String) (k : Nat)
    (srcs : List Source) (ctx : String)
    (hr : retrieve env { st with inited := true } q k = .found srcs ctx) :
    (queryTrue env st q k).2.2 = ⟨0, 1⟩ := by
  unfold queryTrue
  cases srcs with
  | nil => simp [hr]
  | cons d tl =>
    by_cases hu : d.metadata.url = "" <;> simp [hr, hu]

end RagNew

namespace Rag

theorem vecStage_none (env : Env) (st : State)
    (hvec : (env.jina && env.chroma) = false) :
    vecStage env st = (none, st) := by
  unfold vecStage
  simp [hvec]

theorem retrieve_lex_found (env : Env) (st : State) (q : String) (k : Nat)
    (hvec : (env.jina && env.chroma) = false)
    (hd : st.documents ≠ []) (ht : tokenize q ≠ [])
    (htop : topKOf (getWordFreq (tokenize q)) st.documentVectors k ≠ []) :
    retrieve env st q k =
      (.found (mkSources st.documents (topKOf (getWordFreq (tokenize q)) st.documentVectors k))
        false, st) := by
  unfold retrieve
  rw [vecStage_none env st hvec]
  simp [List.length_eq_zero, hd, ht, htop]

theorem countKey_map_canon (env : Env) (docs : List InputDoc) (u : String) :
    countKey (docs.map (canonDoc env)) u = countKeyIn docs u := by
  unfold countKey countKeyIn
  induction docs with
  | nil => rfl
  | cons d ds ih =>
    simp only [List.map_cons, List.filter_cons]
    have hcd : jsTrim (canonDoc env d).metadata.url = jsTrim d.url := rfl
    rw [hcd]
    by_cases h : jsTrim d.url = u
    · simp [h]
      exact ih
    · simp [h]
      exact ih

end Rag

/-! The claims. -/

/-- C3: for every query invocation at most one external generation
call is made; the fallback path (`useFallback = true`) makes zero
external calls, so a second failure in fallback mode is unreachable;
when the external call fails outside fallback mode, exactly one retry
runs, in fallback mode, giving a trace of exactly one Gemini attempt
and one fallback run; fallback attempts per query are ≤ 1.  Stated for
both pipeline variants. -/
theorem claim_c3 (env : RagNew.Env) (st : RagNew.State) (q : String) (k : Nat) (fb : Bool)
    (envR : Rag.Env) (str : Rag.State) :
    (RagNew.query env st q k fb).2.2.geminiCalls ≤ 1 ∧
    (RagNew.query env st q k fb).2.2.fallbackRuns ≤ 1 ∧
    (RagNew.query env st q k true).2.2.geminiCalls = 0 ∧
    (∀ srcs ctx, RagNew.retrieve env { st with inited := true } q k = .found srcs ctx →
       env.gemini = none → (RagNew.query env st q k false).2.2 = ⟨1, 1⟩) ∧
    (Rag.query envR str q k fb).2.2.geminiCalls ≤ 1 ∧
    (Rag.query envR str q k fb).2.2.fallbackRuns ≤ 1 ∧
    (Rag.query envR str q k true).2.2.geminiCalls = 0 := by
  have h1 := RagNew.query_trace env st q k fb
  have h2 := RagNew.queryTrue_trace env st q k
  have h3 := Rag.query_calls envR str q k fb
  have h4 := Rag.queryTrue_calls envR str q k
  refine ⟨h1.1, h1.2, by simpa [RagNew.query] using h2.1, ?_, h3.1, h3.2,
    by simpa [Rag.query] using h4.1⟩
  intro srcs ctx hr hg
  have h5 := RagNew.queryTrue_found_trace env st q k srcs ctx hr
  simp only [RagNew.query, Bool.false_eq_true, if_false, hr, hg]
  rw [h5]

/-- C3 witness: on a concrete one-document store with a failing
generation oracle, the non-fallback query performs exactly one Gemini
attempt and one fallback run. -/
theorem claim_c3_witness :
    (RagNew.query envX stA "pets" 3 false).2.2 = ⟨1, 1⟩ :=
  (claim_c3 envX stA "pets" 3 false envR stR).2.2.2.1 _ _ rfl rfl

/-- C4: from the initial empty state, after any sequence of
`addDocuments` (and, for rag.js, `clear`) calls the documents list and
the vectors list have equal length. -/
theorem claim_c4 :
    (∀ st : RagNew.State, RagNew.Reachable st →
       st.documents.length = st.documentVectors.length) ∧
    (∀ st : Rag.State, Rag.Reachable st →
       st.documents.length = st.documentVectors.length) :=
  ⟨fun _ h => RagNew.reachable_len h, fun _ h => (Rag.reachable_inv h).1⟩

/-- C4 witness: the invariant at concrete reachable states of both
pipelines. -/
theorem claim_c4_witness :
    ((RagNew.addDocuments envX RagNew.State.init [inA]).1).documents.length =
      ((RagNew.addDocuments envX RagNew.State.init [inA]).1).documentVectors.length ∧
    (Rag.clear (Rag.addDocuments envR Rag.State.init [inA])).documents.length =
      (Rag.clear (Rag.addDocuments envR Rag.State.init [inA])).documentVectors.length :=
  ⟨claim_c4.1 _ (RagNew.Reachable.add envX [inA] RagNew.Reachable.init),
   claim_c4.2 _ (Rag.Reachable.clearStep (Rag.Reachable.add envR [inA] Rag.Reachable.init))⟩

/-- C6: `cosineSimilarity` returns exactly 0 whenever either input
norm is 0 (the division is never executed in that case, so no error is
possible), and equals exactly 1 on the diagonal for every non-zero
frequency vector (in exact real arithmetic). -/
theorem claim_c6 :
    (∀ a b : Vec, (simSums a b).2.1 = 0 ∨ (simSums a b).2.2 = 0 →
       (cosineSimilarity a b).val = 0) ∧
    (∀ v : Vec, (∃ w, getD v w ≠ 0) → (cosineSimilarity v v).val = 1) := by
  constructor
  · intro a b h
    unfold cosineSimilarity
    rw [dif_pos h]
    unfold Score.val
    simp
  · intro v hv
    have hd := simSums_self v
    have hpos := selfNorm_pos hv
    have hcond : ¬((simSums v v).2.1 = 0 ∨ (simSums v v).2.2 = 0) := by
      rw [← hd.2]
      omega
    unfold cosineSimilarity
    rw [dif_neg hcond]
    unfold Score.val
    dsimp only
    rw [← hd.1]
    have hsq : Real.sqrt (((simSums v v).1 * (simSums v v).2.2 : ℕ) : ℝ) =
        ((simSums v v).1 : ℝ) := by
      have he : (simSums v v).2.2 = (simSums v v).1 := by omega
      rw [he]
      push_cast
      exact Real.sqrt_mul_self (by positivity)
    rw [hsq]
    have hne : ((simSums v v).1 : ℝ) ≠ 0 := by
      have : 0 < (simSums v v).1 := by omega
      exact_mod_cast Nat.pos_iff_ne_zero.mp this
    exact div_self hne

/-- C6 witness: concrete zero-norm and diagonal instances. -/
theorem claim_c6_witness :
    ((simSums [("cats", 1)] ([] : Vec)).2.2 = 0 ∧
      (cosineSimilarity [("cats", 1)] []).val = 0) ∧
    ((∃ w, getD [("cats", 1), ("dogs", 2)] w ≠ 0) ∧
      (cosineSimilarity [("cats", 1), ("dogs", 2)] [("cats", 1), ("dogs", 2)]).val = 1) :=
  ⟨⟨by decide, claim_c6.1 _ _ (Or.inr (by decide))⟩,
   ⟨⟨"cats", by decide⟩, claim_c6.2 _ ⟨"cats", by decide⟩⟩⟩

/-- C8 counterexample: `addDocuments` returns the constant `true`, not
the number of newly added documents — the return value is identical for
a batch that adds nothing and a batch that adds one document. -/
theorem claim_c8_cex :
    (RagNew.addDocuments envX RagNew.State.init []).2 =
      (RagNew.addDocuments envX RagNew.State.init [inA]).2 ∧
    ((RagNew.addDocuments envX RagNew.State.init []).1).documents.length = 0 ∧
    ((RagNew.addDocuments envX RagNew.State.init [inA]).1).documents.length = 1 := by
  refine ⟨rfl, rfl, ?_⟩
  decide

/-- C8 (amended): `addDocuments` does not return a count (rag.new.js
returns the constant `true`; rag.js returns nothing); the number of
newly added documents is reflected in the growth of the store: the
rag.new.js store grows by the number of inputs that have both `text`
and `title`, and the rag.js store grows by the number of inputs
surviving URL deduplication. -/
theorem claim_c8 (env : RagNew.Env) (st : RagNew.State) (docs : List InputDoc)
    (envR : Rag.Env) (str : Rag.State) :
    (RagNew.addDocuments env st docs).2 = true ∧
    ((RagNew.addDocuments env st docs).1).documents.length =
      st.documents.length +
        (docs.filter (fun d => !(d.text = "" || d.title = ""))).length ∧
    (Rag.addDocuments envR str docs).documents.length =
      str.documents.length + Rag.numNew str.urlSet (docs.map (Rag.canonDoc envR)) := by
  rcases RagNew.addDocuments_shape env st docs with ⟨ha, _, hr⟩
  rcases Rag.addDocuments_parts envR str docs with ⟨hb, _, _⟩
  refine ⟨hr, ?_, ?_⟩
  · rw [ha]
    simp [RagNew.keptDocs]
  · rw [hb, List.length_append, Rag.dedupGo_len]
    simp

/-- C10: `query` never modifies the documents list, the vectors list or
(for rag.js) the URL deduplication set — only `addDocuments` and
`clear` do. -/
theorem claim_c10 (env : RagNew.Env) (st : RagNew.State) (q : String) (k : Nat) (fb : Bool)
    (envR : Rag.Env) (str : Rag.State) :
    ((RagNew.query env st q k fb).2.1).documents = st.documents ∧
    ((RagNew.query env st q k fb).2.1).documentVectors = st.documentVectors ∧
    ((Rag.query envR str q k fb).2.1).documents = str.documents ∧
    ((Rag.query envR str q k fb).2.1).documentVectors = str.documentVectors ∧
    ((Rag.query envR str q k fb).2.1).urlSet = str.urlSet := by
  have h1 := RagNew.query_state env st q k fb
  have h2 := Rag.query_preserve envR str q k fb
  rw [h1]
  exact ⟨rfl, rfl, h2.1, h2.2.1, h2.2.2⟩

instance : DecidableEq Score := fun s t =>
  if h : s.dot = t.dot ∧ s.den2 = t.den2 then
    isTrue (by
      cases s
      cases t
      simp only at h
      cases h.1
      cases h.2
      rfl)
  else
    isFalse (fun he => h (by cases he; exact ⟨rfl, rfl⟩))

instance : DecidableEq Cand := fun a b =>
  if h : a.index = b.index ∧ a.score = b.score then
    isTrue (by
      cases a
      cases b
      simp only at h
      cases h.1
      cases h.2
      rfl)
  else
    isFalse (fun he => h (by cases he; exact ⟨rfl, rfl⟩))

/-- C1 counterexample: `addDocuments` of rag.new.js (the cited code)
performs no URL deduplication at all — two documents whose `url` trims
to the same non-empty string are both stored. -/
theorem claim_c1_cex :
    jsTrim inA.url = "u1" ∧ jsTrim inA2.url = "u1" ∧ ("u1" : String) ≠ "" ∧
    ((RagNew.addDocuments envX RagNew.State.init [inA, inA2]).1).documents.length = 2 := by
  refine ⟨rfl, rfl, by decide, by decide⟩

/-- C1 (amended): the URL-deduplicating `addDocuments` is the one of
utils/rag.js (the pipeline the routes and the seeding script use).  For
every reachable store: a non-empty trimmed key ends up on exactly
`min 1 (stored + batch)` documents — the first occurrence is appended
and every later one skipped; documents with an empty trimmed URL are
always appended, never deduplicated; and a non-empty key is recorded in
the URL set exactly when it was already recorded or occurs in the
batch. -/
theorem claim_c1 (env : Rag.Env) (st : Rag.State) (docs : List InputDoc)
    (hst : Rag.Reachable st) :
    (∀ u, u ≠ "" →
       Rag.countKey ((Rag.addDocuments env st docs).documents) u =
         min 1 (Rag.countKey st.documents u + Rag.countKeyIn docs u)) ∧
    Rag.countKey ((Rag.addDocuments env st docs).documents) "" =
      Rag.countKey st.documents "" + Rag.countKeyIn docs "" ∧
    (∀ u, u ≠ "" →
       (u ∈ (Rag.addDocuments env st docs).urlSet ↔
         u ∈ st.urlSet ∨ 0 < Rag.countKeyIn docs u)) := by
  rcases Rag.addDocuments_parts env st docs with ⟨ha, _, hc⟩
  have hinv := Rag.reachable_inv hst
  refine ⟨?_, ?_, ?_⟩
  · intro u hu
    rcases hinv.2 u hu with ⟨hle, hiff⟩
    rw [ha, Rag.countKey_append, Rag.dedupGo_count hu, Rag.countKey_map_canon]
    have hz : Rag.countKey ([] : List Doc) u = 0 := rfl
    rw [hz]
    by_cases hus : u ∈ st.urlSet
    · have hpos := hiff.mp hus
      rw [if_pos hus]
      omega
    · have h0 : Rag.countKey st.documents u = 0 := by
        by_contra hne
        exact hus (hiff.mpr (Nat.pos_of_ne_zero hne))
      rw [if_neg hus, h0]
      omega
  · rw [ha, Rag.countKey_append, Rag.dedupGo_count_empty, Rag.countKey_map_canon]
    have hz : Rag.countKey ([] : List Doc) "" = 0 := rfl
    rw [hz]
    omega
  · intro u hu
    rw [hc, Rag.dedupGo_mem hu, Rag.countKey_map_canon]

/-- C1 witness: adding two documents with the identical non-empty URL
key `u1` to the fresh store leaves exactly one stored document with
that key. -/
theorem claim_c1_witness :
    Rag.countKey ((Rag.addDocuments envR Rag.State.init [inA, inA2]).documents) "u1" = 1 := by
  have h := (claim_c1 envR Rag.State.init [inA, inA2] Rag.Reachable.init).1 "u1" (by decide)
  rw [h]
  decide

/-- C7: under each no-data condition — empty store, query with no
tokens, or every retrieval score ≤ 0 — `query` returns the
corresponding canned answer with an empty sources list and no debug
object, makes no generation attempt and runs no fallback, and raises
no error. -/
theorem claim_c7 (env : RagNew.Env) (st : RagNew.State) (q : String) (k : Nat) (fb : Bool) :
    (st.documents = [] →
      (RagNew.query env st q k fb).1 = ⟨RagNew.noDocsAnswer, [], .missing⟩ ∧
      (RagNew.query env st q k fb).2.2 = ⟨0, 0⟩) ∧
    (st.documents ≠ [] → tokenize q = [] →
      (RagNew.query env st q k fb).1 = ⟨RagNew.noTokensAnswer, [], .missing⟩ ∧
      (RagNew.query env st q k fb).2.2 = ⟨0, 0⟩) ∧
    (st.documents ≠ [] → tokenize q ≠ [] →
      (∀ v ∈ st.documentVectors,
         (cosineSimilarity (getWordFreq (tokenize q)) v).val ≤ 0) →
      (RagNew.query env st q k fb).1 = ⟨RagNew.noMatchAnswer, [], .missing⟩ ∧
      (RagNew.query env st q k fb).2.2 = ⟨0, 0⟩) := by
  refine ⟨?_, ?_, ?_⟩
  · intro hdoc
    rw [RagNew.query_noDocs env st q k fb (RagNew.retrieve_noDocs env _ q k hdoc)]
    exact ⟨rfl, rfl⟩
  · intro hdoc htok
    rw [RagNew.query_noTokens env st q k fb (RagNew.retrieve_noTokens env _ q k hdoc htok)]
    exact ⟨rfl, rfl⟩
  · intro hdoc htok hval
    have hnil : topKOf (getWordFreq (tokenize q)) st.documentVectors k = [] :=
      topKOf_eq_nil _ _ _ hval
    rw [RagNew.query_noMatch env st q k fb
      (RagNew.retrieve_noMatch env _ q k hdoc htok hnil)]
    exact ⟨rfl, rfl⟩

/-- C7 witness: querying the empty store returns the canned no-data
response. -/
theorem claim_c7_witness :
    (RagNew.query envG RagNew.State.init "anything" 3 false).1 =
      ⟨RagNew.noDocsAnswer, [], .missing⟩ :=
  ((claim_c7 envG RagNew.State.init "anything" 3 false).1 rfl).1

/-- C9 counterexample: in rag.new.js (the cited line 89) the flag
defaults to `true`, so a default-argument query never attempts the
external generation path even with a working generation oracle, and
answers from the fallback generator. -/
theorem claim_c9_cex :
    envG.gemini = some "llm answer" ∧
    (RagNew.queryDefault envG stB "markets").2.2.geminiCalls = 0 ∧
    (RagNew.queryDefault envG stB "markets").1.usedFallback = some true := by
  refine ⟨rfl, by decide, by decide⟩

/-- C9 (amended): the force-fallback flag defaults to `true` in
rag.new.js; in utils/rag.js (the pipeline the routes use) it defaults
to `false`, so a default query attempts the external generation path
first — on success the answer is the service text with no fallback, on
failure exactly one fallback retry produces the fallback answer — and
an explicit `useFallback = true` request never calls the external
service. -/
theorem claim_c9 (env : Rag.Env) (st : Rag.State) (q : String)
    (hvec : (env.jina && env.chroma) = false)
    (hd : st.documents ≠ []) (ht : tokenize q ≠ [])
    (htop : topKOf (getWordFreq (tokenize q)) st.documentVectors 3 ≠ []) :
    (∀ t, env.gemini = some t →
       (Rag.queryDefault env st q).1.answer = t ∧
       (Rag.queryDefault env st q).1.usedFallback = some false ∧
       (Rag.queryDefault env st q).2.2 = ⟨1, 0⟩) ∧
    (env.gemini = none →
       (Rag.queryDefault env st q).1.usedFallback = some true ∧
       (Rag.queryDefault env st q).2.2 = ⟨1, 1⟩) ∧
    (Rag.query env st q 3 true).2.2.geminiCalls = 0 := by
  rcases List.exists_cons_of_ne_nil htop with ⟨c, rest, hce⟩
  have hr := Rag.retrieve_lex_found env { st with inited := true } q 3 hvec hd ht htop
  rw [hce] at hr
  have hqt : (Rag.queryTrue env { st with inited := true } q 3).1.usedFallback = some true ∧
      (Rag.queryTrue env { st with inited := true } q 3).2.2 = ⟨0, 1⟩ := by
    unfold Rag.queryTrue
    simp only [hr, mkSources, List.map_cons]
    constructor <;> trivial
  refine ⟨?_, ?_, ?_⟩
  · intro t hg
    unfold Rag.queryDefault Rag.query
    simp only [Bool.false_eq_true, if_false, hr, hg]
    refine ⟨?_, ?_, ?_⟩ <;> trivial
  · intro hg
    unfold Rag.queryDefault Rag.query
    simp only [Bool.false_eq_true, if_false, hr, hg]
    exact ⟨hqt.1, by rw [hqt.2]⟩
  · simpa [Rag.query] using (Rag.queryTrue_calls env st q 3).1

/-- C9 witness: on a concrete store and lexical-only oracle with a
working generation service, the default query answers with the service
text after exactly one generation call and no fallback. -/
theorem claim_c9_witness :
    (Rag.queryDefault envR stR "pets").1.answer = "llm answer" ∧
    (Rag.queryDefault envR stR "pets").2.2 = ⟨1, 0⟩ := by
  have h := (claim_c9 envR stR "pets" rfl (by decide) (by decide) (by decide)).1
    "llm answer" rfl
  exact ⟨h.1, h.2.2⟩

/-- C5: evaluation of the fallback generator at the failing input.
With a top-ranked document that has a URL, the `const fallbackResponse`
reassignment throws and the outer catch returns the apologetic error
response with empty sources and no `usedFallback` flag — not the
template the claim (and the spec scenario) describes.  With a top
document that has no URL, the URL clause is never reached and the
intended deterministic template is returned with
`_debug.usedFallback = true`. -/
theorem claim_c5 :
    ((RagNew.query envX stA "pets" 3 true).1.answer =
        RagNew.caughtAnswer RagNew.constMsg ∧
      (RagNew.query envX stA "pets" 3 true).1.sources = [] ∧
      (RagNew.query envX stA "pets" 3 true).1.usedFallback = none) ∧
    ((RagNew.query envX stB "markets" 3 true).1.answer =
        "Based on the article \x22B\x22: stock markets rose today... " ∧
      (RagNew.query envX stB "markets" 3 true).1.usedFallback = some true) := by
  refine ⟨⟨by decide, by decide, by decide⟩, ⟨by decide, by decide⟩⟩

/-- C2 counterexample: on the lexical path with a non-empty store, a
tokenizable query and a non-empty surviving candidate list, the
response in fallback mode carries an empty sources list (the
const-reassignment TypeError path) instead of listing the surviving
documents. -/
theorem claim_c2_cex :
    stA.documents ≠ [] ∧ tokenize "pets" ≠ [] ∧
    topKOf (getWordFreq (tokenize "pets")) stA.documentVectors 3 ≠ [] ∧
    (RagNew.query envX stA "pets" 3 true).1.sources = [] := by
  refine ⟨by decide, by decide, by decide, by decide⟩

/-- C2 (amended): on the lexical path with a non-empty store and a
tokenizable query, retrieval scores the query vector against every
stored vector in index order, stable-sorts descending by score (the
sorted list is a permutation of the scored list arranged in descending
score order with ties in insertion order), takes the first K and drops
candidates with score ≤ 0, leaving at most K candidates of positive
score; the returned sources list exactly these surviving documents in
that order — except on the const-reassignment bug path (fallback
generator with a top document that has a URL), where the caught
TypeError yields an empty sources list. -/
theorem claim_c2 (env : RagNew.Env) (st : RagNew.State) (q : String) (k : Nat) (fb : Bool)
    (hd : st.documents ≠ []) (ht : tokenize q ≠ []) :
    (sortCands (scoreAll (getWordFreq (tokenize q)) st.documentVectors)).Perm
        (scoreAll (getWordFreq (tokenize q)) st.documentVectors) ∧
    (sortCands (scoreAll (getWordFreq (tokenize q)) st.documentVectors)).Sorted candLexGE ∧
    (topKOf (getWordFreq (tokenize q)) st.documentVectors k).length ≤ k ∧
    (∀ c ∈ topKOf (getWordFreq (tokenize q)) st.documentVectors k, 0 < c.score.val) ∧
    (topKOf (getWordFreq (tokenize q)) st.documentVectors k = [] →
       (RagNew.query env st q k fb).1.sources = []) ∧
    (∀ c rest, topKOf (getWordFreq (tokenize q)) st.documentVectors k = c :: rest →
       (fb = false → ∀ t, env.gemini = some t →
          (RagNew.query env st q k fb).1.sources = mkSources st.documents (c :: rest)) ∧
       ((fb = true ∨ env.gemini = none) →
          (((st.documents.getD c.index defaultDoc).metadata.url = "" →
             (RagNew.query env st q k fb).1.sources = mkSources st.documents (c :: rest)) ∧
           ((st.documents.getD c.index defaultDoc).metadata.url ≠ "" →
             (RagNew.query env st q k fb).1.sources = [])))) := by
  refine ⟨sortCands_perm _, sorted_sortCands _ (scoreAll_pairwise_index _ _),
    topKOf_length_le _ _ _, topKOf_pos _ _ _, ?_, ?_⟩
  · intro hnil
    rw [RagNew.query_noMatch env st q k fb
      (RagNew.retrieve_noMatch env _ q k hd ht hnil)]
  · intro c rest hce
    have hne : topKOf (getWordFreq (tokenize q)) st.documentVectors k ≠ [] := by
      rw [hce]
      simp
    have hfound := RagNew.retrieve_found env ({ st with inited := true }) q k hd ht hne
    rw [hce] at hfound
    have hqtrue :
        ((st.documents.getD c.index defaultDoc).metadata.url = "" →
           (RagNew.queryTrue env st q k).1.sources = mkSources st.documents (c :: rest)) ∧
        ((st.documents.getD c.index defaultDoc).metadata.url ≠ "" →
           (RagNew.queryTrue env st q k).1.sources = []) := by
      constructor
      · intro hu
        unfold RagNew.queryTrue
        simp only [hfound, mkSources, List.map_cons]
        rw [if_neg (not_not_intro hu)]
      · intro hu
        unfold RagNew.queryTrue
        simp only [hfound, mkSources, List.map_cons]
        rw [if_pos hu]
    constructor
    · rintro rfl t hg
      simp only [RagNew.query, Bool.false_eq_true, if_false, hfound, hg]

    · intro hOr
      have hq : (RagNew.query env st q k fb).1.sources =
          (RagNew.queryTrue env st q k).1.sources := by
        rcases hOr with rfl | hg
        · simp [RagNew.query]
        · cases fb with
          | true => simp [RagNew.query]
          | false =>
            simp only [RagNew.query, Bool.false_eq_true, if_false, hfound, hg]
      rw [hq]
      exact hqtrue

/-- C2 witness: the ranking characterisation applied to a concrete
one-document store with a URL-less document, a matching query and a
working generation oracle. -/
theorem claim_c2_witness :
    stB.documents ≠ [] ∧ tokenize "markets" ≠ [] ∧
    (sortCands (scoreAll (getWordFreq (tokenize "markets")) stB.documentVectors)).Sorted
      candLexGE :=
  ⟨by decide, by decide,
   (claim_c2 envG stB "markets" 3 false (by decide) (by decide)).2.1⟩
